import Mathlib

/-!
Verification of the Tabular View Engine of `react_excelstorm`.

The development shallowly embeds the data model and the operations of
`src/components/VirtualizedDataTable.jsx` and `src/utils/excelParser.js`:

* row records are association lists from column names to JavaScript values,
  together with a numeric identifier (`Row`);
* the view pipeline (`filteredData`, `sortedData`, `paginatedData`) and the
  mutation operations (`handleSaveRow`, `handleDeleteSelected`,
  `handleDuplicateSelected`) are translated function by function;
* `Array.prototype.sort` (stable since ES2019) is embedded as a stable
  insertion sort `jsStableSort` in which a later element is placed in front of
  an earlier one only when the comparator strictly orders it first, i.e. only
  on a strictly negative comparator value.  This matches the reference engine
  (V8 TimSort reorders a pair only on a strictly negative compare result).
* JavaScript numbers are modelled as integers; `Number(...)` coercion of
  strings is modelled on the optional-sign integer-literal fragment
  (`parseJSNumber`), which covers every value the claims exercise;
  `localeCompare` of two already lowercased strings is modelled as
  code-point lexicographic comparison.
-/

/-- Model of a JavaScript cell value as it occurs in a row record:
`null` stands for both `null` and `undefined` (an absent key), the other
constructors are strings and (integer) numbers. -/
inductive JSVal where
  | null : JSVal
  | str : String → JSVal
  | num : Int → JSVal
deriving DecidableEq

/-- JavaScript truthiness for the modelled values: `null`/`undefined`, the
empty string and the number `0` are falsy, everything else is truthy. -/
def truthy : JSVal → Bool
  | JSVal.null => false
  | JSVal.str s => !s.data.isEmpty
  | JSVal.num n => n != 0

/-- Embedding of the JavaScript expression `v || d`: returns `v` when `v`
is truthy and the default `d` otherwise. -/
def jsOr (v d : JSVal) : JSVal := if truthy v then v else d

/-- Embedding of `String(v)` / `v.toString()` on the modelled values.
The `null` case (JavaScript would give `"null"` or `"undefined"`) is
unreachable in this development: every call site first applies `jsOr`
with a non-null default or sits behind the comparator's null guard. -/
def jsString : JSVal → String
  | JSVal.null => "null"
  | JSVal.str s => s
  | JSVal.num n => toString n

/-- Whitespace as stripped by JavaScript `Number(...)` coercion. -/
def isJSSpace (c : Char) : Bool :=
  c = ' ' || c = '\t' || c = '\n' || c = '\r'

/-- Strips leading and trailing whitespace from a character list. -/
def trimChars (cs : List Char) : List Char :=
  ((cs.dropWhile isJSSpace).reverse.dropWhile isJSSpace).reverse

/-- Lowercasing character by character (JavaScript `toLowerCase` on the
ASCII data the table holds). -/
def jsToLower (s : String) : String := String.mk (s.data.map Char.toLower)

/-- Numeric value of an unsigned decimal digit string. -/
def digitsVal (cs : List Char) : Nat :=
  cs.foldl (fun a c => a * 10 + (c.toNat - 48)) 0

/-- Parses a non-empty all-digit character list, `none` otherwise. -/
def parseDigits (cs : List Char) : Option Nat :=
  if !cs.isEmpty && cs.all Char.isDigit then some (digitsVal cs) else none

/-- Embedding of JavaScript `Number(s)` for a string, restricted to the
optional-sign integer-literal fragment: surrounding whitespace is trimmed,
the empty (or all-whitespace) string coerces to `0`, an optional minus sign
followed by decimal digits coerces to the signed value, anything else is
`NaN` (`none`). -/
def parseJSNumber (s : String) : Option Int :=
  match trimChars s.data with
  | [] => some 0
  | c :: cs =>
    if c = '-' then (parseDigits cs).map (fun n => -(n : Int))
    else (parseDigits (c :: cs)).map (fun n => (n : Int))

/-- Embedding of `Number(v)` (`none` models `NaN`, so `isNaN v` is
`(jsToNumber v).isNone`).  The `null` case is unreachable here: the sort
comparator, the only consumer, tests both operands against null first. -/
def jsToNumber : JSVal → Option Int
  | JSVal.null => none
  | JSVal.str s => parseJSNumber s
  | JSVal.num n => some n

/-- Embedding of `a.localeCompare(b)` on the already lowercased operands,
modelled as code-point lexicographic comparison with result in
`{-1, 0, 1}`. -/
def strCompare (a b : String) : Int :=
  match compare a b with
  | Ordering.lt => -1
  | Ordering.eq => 0
  | Ordering.gt => 1

/-- Embedding of `s.includes(sub)`: `sub` occurs as a contiguous substring
of `s`. -/
def strIncludes (s sub : String) : Bool := decide (sub.data <:+: s.data)

/-- Model of JavaScript `s.substring(0, n)`: the first `n` characters of
`s` (JavaScript counts UTF-16 code units; on the basic multilingual plane
the two coincide). -/
def jsSubstringTo (s : String) (n : Nat) : String := String.mk (s.data.take n)

/-- One table record: a numeric identifier (never shown as a column) plus
an association list from column name to cell value, in declaration order.
`Date.now() + Math.random()` identifiers are modelled as integers. -/
structure Row where
  id : Int
  fields : List (String × JSVal)
deriving DecidableEq

/-- Embedding of the property read `row[header]`: the value stored under
the key, or `undefined` (modelled by `JSVal.null`) when the key is absent. -/
def getField (row : Row) (header : String) : JSVal :=
  (row.fields.lookup header).getD JSVal.null

/-- Sort direction, `'asc' | 'desc'` in the source. -/
inductive Direction where
  | asc : Direction
  | desc : Direction
deriving DecidableEq

/-- Sort state `sortConfig = { key, direction }` of
`VirtualizedDataTable.jsx`; `key : null` means no sort column selected. -/
structure SortConfig where
  key : Option String
  direction : Direction
deriving DecidableEq

/-- Embedding of `handleSort` (VirtualizedDataTable.jsx lines 230-235):
clicking a header selects that column; the direction toggles to descending
exactly when the same column was already sorted ascending, and resets to
ascending otherwise. -/
def handleSort (header : String) (prev : SortConfig) : SortConfig :=
  { key := some header,
    direction :=
      if prev.key = some header ∧ prev.direction = Direction.asc
      then Direction.desc else Direction.asc }

/-- Embedding of the filter stage `filteredData` (VirtualizedDataTable.jsx
lines 104-112): an empty search term returns the data unchanged; otherwise
a row is kept iff some header column's value, coerced to a string by
`String(row[header] || '')` and lowercased, contains the lowercased search
term. -/
def filteredData (headers : List String) (searchTerm : String) (data : List Row) :
    List Row :=
  if searchTerm = "" then data
  else
    data.filter fun row =>
      headers.any fun header =>
        strIncludes (jsToLower (jsString (jsOr (getField row header) (JSVal.str ""))))
          (jsToLower searchTerm)

/-- Embedding of the sort comparator of `sortedData` (VirtualizedDataTable.jsx
lines 145-167): a null/undefined first operand yields `1`, then a null
second operand yields `-1` (so missing values are pushed to the end in both
directions); if both values coerce to numbers the comparator is their
(direction-signed) numeric difference; otherwise it is (direction-swapped)
`localeCompare` of the lowercased string forms. -/
def sortCompare (key : String) (dir : Direction) (a b : Row) : Int :=
  let aValue := getField a key
  let bValue := getField b key
  if aValue = JSVal.null then 1
  else if bValue = JSVal.null then -1
  else
    match jsToNumber aValue, jsToNumber bValue with
    | some x, some y => if dir = Direction.asc then x - y else y - x
    | _, _ =>
      let strA := jsToLower (jsString aValue)
      let strB := jsToLower (jsString bValue)
      if dir = Direction.asc then strCompare strA strB else strCompare strB strA

/-- Stable insertion of `a` (an element later in the original order) into
the already processed list: `a` overtakes an earlier element `b` only when
`lt a b` holds, i.e. only when the comparator strictly orders `a` first. -/
def insertSorted (lt : Row → Row → Bool) (a : Row) : List Row → List Row
  | [] => [a]
  | b :: bs => if lt a b then a :: b :: bs else b :: insertSorted lt a bs

/-- Embedding of the ES2019 stable `Array.prototype.sort`: elements are
inserted in original order, and a later element is placed in front of an
earlier one only on a strictly negative comparator value (the convention of
the reference engine; V8's TimSort reorders a pair only when the comparator
returns a strictly negative result). -/
def jsStableSort (lt : Row → Row → Bool) (l : List Row) : List Row :=
  l.foldl (fun acc x => insertSorted lt x acc) []

/-- Embedding of the sort stage `sortedData` (VirtualizedDataTable.jsx lines
142-170): no sort key returns the filtered data unchanged, otherwise the
filtered data is sorted by the comparator for the selected key and
direction. -/
def sortedData (cfg : SortConfig) (filtered : List Row) : List Row :=
  match cfg.key with
  | none => filtered
  | some key =>
    jsStableSort (fun a b => sortCompare key cfg.direction a b < 0) filtered

/-- The allowed page sizes (`ITEMS_PER_PAGE_OPTIONS`, VirtualizedDataTable.jsx
line 6). -/
def ITEMS_PER_PAGE_OPTIONS : List Nat := [10, 25, 50, 100]

/-- Embedding of `totalPages = Math.ceil(displayData.length / itemsPerPage)`
(VirtualizedDataTable.jsx line 178): the ceiling of the exact (rational)
division. -/
def totalPages (len itemsPerPage : Nat) : Int :=
  ⌈(len : ℚ) / (itemsPerPage : ℚ)⌉

/-- Embedding of `paginatedData = displayData.slice(startIndex, endIndex)`
with `startIndex = (currentPage - 1) * itemsPerPage` and
`endIndex = startIndex + itemsPerPage` (VirtualizedDataTable.jsx lines
181-187). -/
def paginatedData (displayData : List Row) (itemsPerPage currentPage : Nat) :
    List Row :=
  (displayData.drop ((currentPage - 1) * itemsPerPage)).take itemsPerPage

/-- Embedding of `handleSaveRow` (VirtualizedDataTable.jsx lines 434-446):
saving a new row prepends it to the front of the collection; saving an edit
replaces, in place, every record whose id equals the edited row's id. -/
def handleSaveRow (isNewRow : Bool) (row : Row) (data : List Row) : List Row :=
  if isNewRow then row :: data
  else data.map fun r => if r.id = row.id then row else r

/-- Embedding of the confirmed path of `handleDeleteSelected`
(VirtualizedDataTable.jsx lines 352-362): with an empty selection the
operation only warns and leaves the data unchanged; otherwise every record
whose id is in the selection set is removed.  The selection `Set` is
modelled as a list of ids queried through `contains`. -/
def handleDeleteSelected (selectedRows : List Int) (data : List Row) : List Row :=
  if selectedRows = [] then data
  else data.filter fun row => !(selectedRows.contains row.id)

/-- Embedding of `handleDuplicateSelected` (VirtualizedDataTable.jsx lines
383-398): with an empty selection the operation only warns; otherwise the
selected records are copied with fresh ids (`Date.now() + Math.random()`,
modelled by the caller-supplied list `newIds`, consumed positionally) and
the copies are prepended to the front of the collection. -/
def handleDuplicateSelected (selectedRows : List Int) (newIds : List Int)
    (data : List Row) : List Row :=
  if selectedRows = [] then data
  else
    let selected := data.filter fun row => selectedRows.contains row.id
    let duplicates := (selected.zip newIds).map fun p => { p.1 with id := p.2 }
    duplicates ++ data

/-- Embedding of `String(n).padStart(2, '0')` for the month/day components
(`n` is a decimal rendering of a `getMonth() + 1` / `getDate()` value, hence
never empty, so at most one `'0'` is prepended). -/
def padTwo (n : Nat) : String :=
  if (toString n).length < 2 then "0" ++ toString n else toString n

/-- Embedding of `formatDateForSAP` (excelParser.js lines 81-91): renders a
date as `YYYYMMDD`, the year unpadded and month (already 1-based) and day
zero-padded to two digits. -/
def formatDateForSAP (year : Int) (month day : Nat) : String :=
  toString year ++ padTwo month ++ padTwo day

/-- The fixed target column set of an ingested record, in declaration order,
excluding the identifier and the `_`-prefixed reference field (excelParser.js
lines 26-37 and the header derivation on line 40). -/
def TARGET_HEADERS : List String :=
  ["CHALLAN_NO", "A_BANCD", "A_BANKL", "CHALL_DATE", "ACCOUNT_CODE",
   "CHAN_AMT", "NOTES"]

/-- Embedding of the per-row transform of `parseExcelFile` (excelParser.js
lines 23-38).  A raw spreadsheet row is a partial map from source column
name to value, absent cells being `JSVal.null` (`undefined`).  `uid` models
the `Date.now() + index` identifier and `sapModelDate` the line-24 value
`formatDateForSAP(item['Challan Date'] || new Date())` (date parsing of the
cell and the current-date fallback are environment behaviour; when the
`'Challan Date'` cell is absent, `sapModelDate` is `formatDateForSAP` of the
current date).  The `_originalData` reference field is not modelled: the
header derivation on line 40 excludes it and `id` from the column set, and
no table operation reads it. -/
def transformRow (uid : Int) (sapModelDate : String) (item : String → JSVal) :
    Row :=
  { id := uid,
    fields :=
      [("CHALLAN_NO",
          JSVal.str (jsSubstringTo (jsString (jsOr (item "Challan Number") (JSVal.str ""))) 11)),
       ("A_BANCD", jsOr (item "Bank Code") (JSVal.str "")),
       ("A_BANKL", jsOr (item "Branch Code") (JSVal.str "")),
       ("CHALL_DATE", JSVal.str sapModelDate),
       ("ACCOUNT_CODE", jsOr (item "Account Code") (JSVal.str "")),
       ("CHAN_AMT", jsOr (item "Amount") (JSVal.str "0")),
       ("NOTES",
          JSVal.str (jsSubstringTo (jsString (jsOr (item "Notes") (JSVal.str ""))) 255))] }

/-- Column names exposed by a record, in order (`Object.keys` minus `id`
and `_`-prefixed fields, excelParser.js line 40). -/
def headersOf (r : Row) : List String := r.fields.map Prod.fst

/-- Bool test used by the sort comparator's null guard: the row's sort-key
value is `null`/`undefined`. -/
def isMissing (key : String) (r : Row) : Bool := getField r key == JSVal.null

/-- Total numeric reading of a row's sort-key value (defaulting to `0`),
meaningful for rows whose key value coerces to a number. -/
def keyNumD (key : String) (r : Row) : Int :=
  (jsToNumber (getField r key)).getD 0

/-! ### Generic facts about the stable sort embedding -/

theorem mem_insertSorted {lt : Row → Row → Bool} {a x : Row} {l : List Row} :
    x ∈ insertSorted lt a l ↔ x = a ∨ x ∈ l := by
  induction l with
  | nil => simp [insertSorted]
  | cons b bs ih =>
    by_cases h : lt a b
    · simp [insertSorted, h, List.mem_cons]
    · simp only [insertSorted, if_neg h, List.mem_cons, ih]
      tauto

theorem insertSorted_perm (lt : Row → Row → Bool) (a : Row) (l : List Row) :
    List.Perm (insertSorted lt a l) (a :: l) := by
  induction l with
  | nil => simp [insertSorted]
  | cons b bs ih =>
    by_cases h : lt a b
    · simp [insertSorted, h]
    · simp only [insertSorted, if_neg h]
      exact List.Perm.trans (List.Perm.cons b ih) (List.Perm.swap a b bs)

theorem foldl_insertSorted_perm (lt : Row → Row → Bool) :
    ∀ (l acc : List Row),
      List.Perm (l.foldl (fun acc x => insertSorted lt x acc) acc) (acc ++ l)
  | [], acc => by simp
  | x :: xs, acc => by
    simp only [List.foldl_cons]
    have h1 := foldl_insertSorted_perm lt xs (insertSorted lt x acc)
    have h2 : List.Perm (insertSorted lt x acc ++ xs) ((x :: acc) ++ xs) :=
      List.Perm.append_right xs (insertSorted_perm lt x acc)
    have h3 : List.Perm ((x :: acc) ++ xs) (acc ++ x :: xs) := List.perm_middle.symm
    exact (h1.trans h2).trans h3

theorem jsStableSort_perm (lt : Row → Row → Bool) (l : List Row) :
    List.Perm (jsStableSort lt l) l := by
  simpa [jsStableSort] using foldl_insertSorted_perm lt l []

theorem insertSorted_eq_append {lt : Row → Row → Bool} {a : Row}
    (hstay : ∀ b, lt a b = false) : ∀ l : List Row, insertSorted lt a l = l ++ [a]
  | [] => rfl
  | b :: bs => by
    simp only [insertSorted, hstay b, Bool.false_eq_true, if_false, List.cons_append,
      List.cons.injEq, true_and]
    exact insertSorted_eq_append hstay bs

theorem filter_insertSorted_pos {lt : Row → Row → Bool} {p : Row → Bool} {a : Row}
    (hpa : p a = true) (hstay : ∀ b, lt a b = false) (l : List Row) :
    (insertSorted lt a l).filter p = l.filter p ++ [a] := by
  rw [insertSorted_eq_append hstay, List.filter_append]
  simp [hpa]

theorem filter_insertSorted_neg {lt : Row → Row → Bool} {p : Row → Bool} {a : Row}
    (hpa : p a = false) (l : List Row) :
    (insertSorted lt a l).filter p = l.filter p := by
  induction l with
  | nil => simp [insertSorted, hpa]
  | cons b bs ih =>
    by_cases h : lt a b
    · simp [insertSorted, h, List.filter_cons, hpa]
    · simp only [insertSorted, if_neg h, List.filter_cons, ih]

theorem foldl_insertSorted_filter (lt : Row → Row → Bool) (p : Row → Bool)
    (hstay : ∀ a, p a = true → ∀ b, lt a b = false) :
    ∀ (l acc : List Row),
      (l.foldl (fun acc x => insertSorted lt x acc) acc).filter p
        = acc.filter p ++ l.filter p
  | [], acc => by simp
  | x :: xs, acc => by
    simp only [List.foldl_cons]
    rw [foldl_insertSorted_filter lt p hstay xs (insertSorted lt x acc)]
    by_cases hpx : p x = true
    · rw [filter_insertSorted_pos hpx (hstay x hpx), List.filter_cons, if_pos hpx,
        List.append_assoc, List.singleton_append]
    · have hpx2 : p x = false := by
        cases hx : p x
        · rfl
        · exact absurd hx hpx
      rw [filter_insertSorted_neg hpx2, List.filter_cons, if_neg hpx]

theorem jsStableSort_filter (lt : Row → Row → Bool) (p : Row → Bool)
    (hstay : ∀ a, p a = true → ∀ b, lt a b = false) (l : List Row) :
    (jsStableSort lt l).filter p = l.filter p := by
  simpa [jsStableSort] using foldl_insertSorted_filter lt p hstay l []

theorem pairwise_insertSorted {lt : Row → Row → Bool} {p : Row → Bool} {a : Row}
    (hstay : ∀ x, p x = true → ∀ b, lt x b = false)
    (hover : ∀ x b, p x = false → p b = true → lt x b = true) :
    ∀ l : List Row, l.Pairwise (fun x y => p x = true → p y = true) →
      (insertSorted lt a l).Pairwise (fun x y => p x = true → p y = true) := by
  intro l hl
  by_cases hpa : p a = true
  · rw [insertSorted_eq_append (hstay a hpa)]
    apply List.pairwise_append.mpr
    refine ⟨hl, List.pairwise_singleton _ _, ?_⟩
    intro x hx y hy
    simp only [List.mem_singleton] at hy
    subst hy
    intro _
    exact hpa
  · have hpa2 : p a = false := by
      cases hx : p a
      · rfl
      · exact absurd hx hpa
    induction l with
    | nil => simp [insertSorted]
    | cons b bs ih =>
      rcases List.pairwise_cons.mp hl with ⟨hb, hbs⟩
      by_cases hab : lt a b
      · simp only [insertSorted, if_pos hab]
        apply List.pairwise_cons.mpr
        refine ⟨?_, hl⟩
        intro y _ hra
        exact absurd hra hpa
      · simp only [insertSorted, if_neg hab]
        apply List.pairwise_cons.mpr
        refine ⟨?_, ih hbs⟩
        intro y hy
        rcases mem_insertSorted.mp hy with rfl | hy2
        · intro hpb
          exact absurd (hover y b hpa2 hpb) hab
        · exact hb y hy2

theorem jsStableSort_pairwise (lt : Row → Row → Bool) (p : Row → Bool)
    (hstay : ∀ x, p x = true → ∀ b, lt x b = false)
    (hover : ∀ x b, p x = false → p b = true → lt x b = true) (l : List Row) :
    (jsStableSort lt l).Pairwise (fun x y => p x = true → p y = true) := by
  have haux : ∀ (l acc : List Row),
      acc.Pairwise (fun x y => p x = true → p y = true) →
      (l.foldl (fun acc x => insertSorted lt x acc) acc).Pairwise
        (fun x y => p x = true → p y = true) := by
    intro l
    induction l with
    | nil => intro acc hacc; simpa using hacc
    | cons x xs ih =>
      intro acc hacc
      simp only [List.foldl_cons]
      exact ih _ (pairwise_insertSorted hstay hover acc hacc)
  simpa [jsStableSort] using haux l [] List.Pairwise.nil

/-! ### Comparator facts -/

theorem sortCompare_null_left {key : String} {dir : Direction} {a b : Row}
    (h : getField a key = JSVal.null) : sortCompare key dir a b = 1 := by
  simp [sortCompare, h]

theorem sortCompare_null_right {key : String} {dir : Direction} {a b : Row}
    (ha : getField a key ≠ JSVal.null) (hb : getField b key = JSVal.null) :
    sortCompare key dir a b = -1 := by
  simp [sortCompare, ha, hb]

theorem sortCompare_of_nums {key : String} {dir : Direction} {a b : Row} {x y : Int}
    (hx : jsToNumber (getField a key) = some x)
    (hy : jsToNumber (getField b key) = some y) :
    sortCompare key dir a b = if dir = Direction.asc then x - y else y - x := by
  have hna : getField a key ≠ JSVal.null := by
    intro h
    rw [h] at hx
    simp [jsToNumber] at hx
  have hnb : getField b key ≠ JSVal.null := by
    intro h
    rw [h] at hy
    simp [jsToNumber] at hy
  simp [sortCompare, hna, hnb, hx, hy]

theorem isMissing_iff {key : String} {r : Row} :
    isMissing key r = true ↔ getField r key = JSVal.null := by
  simp [isMissing]

/-- Claim C3: for every sort column and both directions, a record whose
sort-key value is null or undefined is never ahead of a record with a
present value in the sorted output (first conjunct: pairwise, a missing
record is followed only by missing records), and the subsequence of records
with missing sort-key values is exactly their subsequence in the filter
stage output, in the same order (second conjunct). -/
theorem missing_values_sort_to_end (key : String) (dir : Direction) (l : List Row) :
    (sortedData (SortConfig.mk (some key) dir) l).Pairwise
        (fun a b => isMissing key a = true → isMissing key b = true)
      ∧ (sortedData (SortConfig.mk (some key) dir) l).filter (isMissing key)
          = l.filter (isMissing key) := by
  have hstay : ∀ x, isMissing key x = true →
      ∀ b, (decide (sortCompare key dir x b < 0)) = false := by
    intro x hx b
    rw [sortCompare_null_left (isMissing_iff.mp hx)]
    decide
  have hover : ∀ x b, isMissing key x = false → isMissing key b = true →
      (decide (sortCompare key dir x b < 0)) = true := by
    intro x b hx hb
    have hxn : getField x key ≠ JSVal.null := by
      intro h
      rw [← isMissing_iff] at h
      rw [h] at hx
      cases hx
    rw [sortCompare_null_right hxn (isMissing_iff.mp hb)]
    decide
  constructor
  · exact jsStableSort_pairwise _ (isMissing key) hstay hover l
  · exact jsStableSort_filter _ (isMissing key) hstay l

/-- Witness for C3 at a concrete input: one record with a present
`CHAN_AMT` value and two with the key missing. -/
theorem missing_values_sort_to_end_witness :
    (sortedData (SortConfig.mk (some "CHAN_AMT") Direction.asc)
        [Row.mk 1 [], Row.mk 2 [("CHAN_AMT", JSVal.str "50")], Row.mk 3 []]).Pairwise
        (fun a b => isMissing "CHAN_AMT" a = true → isMissing "CHAN_AMT" b = true)
      ∧ (sortedData (SortConfig.mk (some "CHAN_AMT") Direction.asc)
            [Row.mk 1 [], Row.mk 2 [("CHAN_AMT", JSVal.str "50")], Row.mk 3 []]).filter
            (isMissing "CHAN_AMT")
          = [Row.mk 1 [], Row.mk 2 [("CHAN_AMT", JSVal.str "50")], Row.mk 3 []].filter
            (isMissing "CHAN_AMT") :=
  missing_values_sort_to_end "CHAN_AMT" Direction.asc
    [Row.mk 1 [], Row.mk 2 [("CHAN_AMT", JSVal.str "50")], Row.mk 3 []]

/-! ### Sortedness of the stable sort for a comparator that is a total
order on the elements at hand -/

theorem pairwise_le_insertSorted {lt : Row → Row → Bool} {f : Row → Int}
    {P : Row → Prop} (hlt : ∀ a b, P a → P b → (lt a b = true ↔ f a < f b))
    {a : Row} (hPa : P a) :
    ∀ l : List Row, (∀ x ∈ l, P x) →
      l.Pairwise (fun x y => f x ≤ f y) →
      (insertSorted lt a l).Pairwise (fun x y => f x ≤ f y) := by
  intro l
  induction l with
  | nil =>
    intro _ _
    simp [insertSorted]
  | cons b bs ih =>
    intro hmem hp
    have hPb : P b := hmem b (List.mem_cons_self b bs)
    have hmbs : ∀ x ∈ bs, P x := fun x hx => hmem x (List.mem_cons_of_mem b hx)
    rcases List.pairwise_cons.mp hp with ⟨hb, hbs⟩
    by_cases hab : lt a b
    · have hfab : f a < f b := (hlt a b hPa hPb).mp hab
      simp only [insertSorted, if_pos hab]
      apply List.pairwise_cons.mpr
      refine ⟨?_, hp⟩
      intro y hy
      rcases List.mem_cons.mp hy with rfl | hy2
      · exact le_of_lt hfab
      · exact le_of_lt (lt_of_lt_of_le hfab (hb y hy2))
    · have hfba : f b ≤ f a := by
        have := (hlt a b hPa hPb).not.mp (by simpa using hab)
        omega
      simp only [insertSorted, if_neg hab]
      apply List.pairwise_cons.mpr
      refine ⟨?_, ih hmbs hbs⟩
      intro y hy
      rcases mem_insertSorted.mp hy with rfl | hy2
      · exact hfba
      · exact hb y hy2

theorem pairwise_le_jsStableSort {lt : Row → Row → Bool} {f : Row → Int}
    {P : Row → Prop} (hlt : ∀ a b, P a → P b → (lt a b = true ↔ f a < f b))
    (l : List Row) (hl : ∀ x ∈ l, P x) :
    (jsStableSort lt l).Pairwise (fun x y => f x ≤ f y) := by
  have haux : ∀ (l2 acc : List Row), (∀ x ∈ l2, P x) → (∀ x ∈ acc, P x) →
      acc.Pairwise (fun x y => f x ≤ f y) →
      ((l2.foldl (fun acc x => insertSorted lt x acc) acc).Pairwise
          (fun x y => f x ≤ f y)
        ∧ ∀ x ∈ l2.foldl (fun acc x => insertSorted lt x acc) acc, P x) := by
    intro l2
    induction l2 with
    | nil =>
      intro acc _ hacc hps
      exact ⟨hps, hacc⟩
    | cons x xs ih =>
      intro acc hxl hacc hps
      have hPx : P x := hxl x (List.mem_cons_self x xs)
      have hxs : ∀ y ∈ xs, P y := fun y hy => hxl y (List.mem_cons_of_mem x hy)
      have hacc2 : ∀ y ∈ insertSorted lt x acc, P y := by
        intro y hy
        rcases mem_insertSorted.mp hy with rfl | hy2
        · exact hPx
        · exact hacc y hy2
      simp only [List.foldl_cons]
      exact ih _ hxs hacc2 (pairwise_le_insertSorted hlt hPx acc hacc hps)
  simpa [jsStableSort] using (haux l [] hl (by simp) List.Pairwise.nil).1

/-- Claim C2 counterexample: with a record whose sort-key value is missing,
sorting the same column twice does not reverse the first sorted order,
because missing values are pushed to the end in both directions. -/
theorem sort_twice_reverses_counterexample :
    sortedData
        (handleSort "CHAN_AMT" (handleSort "CHAN_AMT" (SortConfig.mk none Direction.asc)))
        [Row.mk 1 [("CHAN_AMT", JSVal.str "50")], Row.mk 2 []]
      ≠ (sortedData (handleSort "CHAN_AMT" (SortConfig.mk none Direction.asc))
          [Row.mk 1 [("CHAN_AMT", JSVal.str "50")], Row.mk 2 []]).reverse := by
  decide

/-- Claim C2 (amended): provided every record's sort-key value is present
and coerces to a number, and the key values are pairwise distinct, clicking
a (previously unsorted) column once sorts ascending and clicking it a
second time yields exactly the reverse of the first sorted sequence; the
two sorted sequences are permutations of each other (identical element
multiset). -/
theorem sort_twice_reverses (h : String) (prev : SortConfig) (l : List Row)
    (hprev : prev.key ≠ some h)
    (hnum : ∀ r ∈ l, (jsToNumber (getField r h)).isSome = true)
    (hinj : l.Pairwise fun a b => keyNumD h a ≠ keyNumD h b) :
    sortedData (handleSort h (handleSort h prev)) l
        = (sortedData (handleSort h prev) l).reverse
      ∧ List.Perm (sortedData (handleSort h (handleSort h prev)) l)
          (sortedData (handleSort h prev) l) := by
  have hc1 : handleSort h prev = SortConfig.mk (some h) Direction.asc := by
    simp only [handleSort]
    rw [if_neg (fun hh => hprev hh.1)]
  have hc2 : handleSort h (SortConfig.mk (some h) Direction.asc)
      = SortConfig.mk (some h) Direction.desc := by
    simp [handleSort]
  rw [hc1, hc2]
  set lt1 : Row → Row → Bool :=
    fun a b => decide (sortCompare h Direction.asc a b < 0) with hlt1def
  set lt2 : Row → Row → Bool :=
    fun a b => decide (sortCompare h Direction.desc a b < 0) with hlt2def
  have hsd1 : sortedData (SortConfig.mk (some h) Direction.asc) l = jsStableSort lt1 l := rfl
  have hsd2 : sortedData (SortConfig.mk (some h) Direction.desc) l = jsStableSort lt2 l := rfl
  rw [hsd1, hsd2]
  have hP : ∀ r, (jsToNumber (getField r h)).isSome = true →
      jsToNumber (getField r h) = some (keyNumD h r) := by
    intro r hr
    rcases Option.isSome_iff_exists.mp hr with ⟨x, hx⟩
    rw [hx]
    simp [keyNumD, hx]
  have hlt1 : ∀ a b, (jsToNumber (getField a h)).isSome = true →
      (jsToNumber (getField b h)).isSome = true →
      (lt1 a b = true ↔ keyNumD h a < keyNumD h b) := by
    intro a b ha hb
    rw [hlt1def]
    simp only [decide_eq_true_eq]
    rw [sortCompare_of_nums (hP a ha) (hP b hb)]
    simp
  have hlt2 : ∀ a b, (jsToNumber (getField a h)).isSome = true →
      (jsToNumber (getField b h)).isSome = true →
      (lt2 a b = true ↔ -(keyNumD h a) < -(keyNumD h b)) := by
    intro a b ha hb
    rw [hlt2def]
    simp only [decide_eq_true_eq]
    rw [sortCompare_of_nums (hP a ha) (hP b hb)]
    simp
  have pA : List.Perm (jsStableSort lt1 l) l := jsStableSort_perm lt1 l
  have pD : List.Perm (jsStableSort lt2 l) l := jsStableSort_perm lt2 l
  have SA : (jsStableSort lt1 l).Pairwise
      (fun x y => keyNumD h x ≤ keyNumD h y) :=
    pairwise_le_jsStableSort hlt1 l hnum
  have SD : (jsStableSort lt2 l).Pairwise
      (fun x y => -(keyNumD h x) ≤ -(keyNumD h y)) :=
    pairwise_le_jsStableSort hlt2 l hnum
  have hne_symm : ∀ {x y : Row},
      keyNumD h x ≠ keyNumD h y → keyNumD h y ≠ keyNumD h x := fun hxy => hxy.symm
  have NA : (jsStableSort lt1 l).Pairwise
      (fun a b => keyNumD h a ≠ keyNumD h b) :=
    (List.Perm.pairwise_iff hne_symm pA).mpr hinj
  have ND : ((jsStableSort lt2 l).reverse).Pairwise
      (fun a b => keyNumD h a ≠ keyNumD h b) :=
    (List.Perm.pairwise_iff hne_symm
      (((jsStableSort lt2 l).reverse_perm).trans pD)).mpr hinj
  have strictA : (jsStableSort lt1 l).Pairwise
      (fun x y => keyNumD h x < keyNumD h y) :=
    (SA.and NA).imp fun hp => lt_of_le_of_ne hp.1 hp.2
  have SRev : ((jsStableSort lt2 l).reverse).Pairwise
      (fun x y => keyNumD h x ≤ keyNumD h y) := by
    rw [List.pairwise_reverse]
    exact SD.imp fun hp => by omega
  have strictRev : ((jsStableSort lt2 l).reverse).Pairwise
      (fun x y => keyNumD h x < keyNumD h y) :=
    (SRev.and ND).imp fun hp => lt_of_le_of_ne hp.1 hp.2
  have hperm : List.Perm ((jsStableSort lt2 l).reverse) (jsStableSort lt1 l) :=
    (((jsStableSort lt2 l).reverse_perm).trans pD).trans pA.symm
  haveI : IsAntisymm Row (fun x y => keyNumD h x < keyNumD h y) :=
    ⟨fun a b h1 h2 => absurd (h1.trans h2) (lt_irrefl _)⟩
  have heq : (jsStableSort lt2 l).reverse = jsStableSort lt1 l :=
    List.eq_of_perm_of_sorted hperm strictRev strictA
  constructor
  · rw [← heq, List.reverse_reverse]
  · exact pD.trans pA.symm

/-- Witness for the amended C2 at the concrete scenario from the
specification: `CHAN_AMT` values `500`, `50`, `1000`. -/
theorem sort_twice_reverses_witness :
    ((SortConfig.mk none Direction.asc).key ≠ some "CHAN_AMT")
    ∧ (∀ r ∈ [Row.mk 1 [("CHAN_AMT", JSVal.str "500")],
          Row.mk 2 [("CHAN_AMT", JSVal.str "50")],
          Row.mk 3 [("CHAN_AMT", JSVal.str "1000")]],
        (jsToNumber (getField r "CHAN_AMT")).isSome = true)
    ∧ ([Row.mk 1 [("CHAN_AMT", JSVal.str "500")],
          Row.mk 2 [("CHAN_AMT", JSVal.str "50")],
          Row.mk 3 [("CHAN_AMT", JSVal.str "1000")]].Pairwise
        fun a b => keyNumD "CHAN_AMT" a ≠ keyNumD "CHAN_AMT" b)
    ∧ (sortedData
          (handleSort "CHAN_AMT" (handleSort "CHAN_AMT" (SortConfig.mk none Direction.asc)))
          [Row.mk 1 [("CHAN_AMT", JSVal.str "500")],
            Row.mk 2 [("CHAN_AMT", JSVal.str "50")],
            Row.mk 3 [("CHAN_AMT", JSVal.str "1000")]]
          = (sortedData (handleSort "CHAN_AMT" (SortConfig.mk none Direction.asc))
              [Row.mk 1 [("CHAN_AMT", JSVal.str "500")],
                Row.mk 2 [("CHAN_AMT", JSVal.str "50")],
                Row.mk 3 [("CHAN_AMT", JSVal.str "1000")]]).reverse
        ∧ List.Perm
            (sortedData
              (handleSort "CHAN_AMT" (handleSort "CHAN_AMT" (SortConfig.mk none Direction.asc)))
              [Row.mk 1 [("CHAN_AMT", JSVal.str "500")],
                Row.mk 2 [("CHAN_AMT", JSVal.str "50")],
                Row.mk 3 [("CHAN_AMT", JSVal.str "1000")]])
            (sortedData (handleSort "CHAN_AMT" (SortConfig.mk none Direction.asc))
              [Row.mk 1 [("CHAN_AMT", JSVal.str "500")],
                Row.mk 2 [("CHAN_AMT", JSVal.str "50")],
                Row.mk 3 [("CHAN_AMT", JSVal.str "1000")]])) :=
  ⟨by decide, by decide, by decide,
    sort_twice_reverses "CHAN_AMT" (SortConfig.mk none Direction.asc)
      [Row.mk 1 [("CHAN_AMT", JSVal.str "500")],
        Row.mk 2 [("CHAN_AMT", JSVal.str "50")],
        Row.mk 3 [("CHAN_AMT", JSVal.str "1000")]]
      (by decide) (by decide) (by decide)⟩

/-! ### Filter stage -/

/-- Claim C1: for every non-empty filter string, a record is in the filter
stage output iff it is in the input collection and at least one header
column's lowercased string form contains the lowercased filter string; in
particular every retained record matches in some column and every excluded
record matches in none. -/
theorem filter_retains_iff_column_matches (headers : List String)
    (searchTerm : String) (data : List Row) (row : Row) (hs : searchTerm ≠ "") :
    row ∈ filteredData headers searchTerm data
      ↔ row ∈ data ∧ ∃ header ∈ headers,
          strIncludes (jsToLower (jsString (jsOr (getField row header) (JSVal.str ""))))
            (jsToLower searchTerm) = true := by
  rw [filteredData, if_neg hs]
  simp [List.mem_filter, List.any_eq_true]

/-- Witness for C1 at the concrete scenario from the specification: filter
text `bank01` retains exactly the records whose `A_BANCD` column equals
`BANK01` case-insensitively. -/
theorem filter_retains_iff_column_matches_witness :
    ("bank01" : String) ≠ ""
    ∧ (Row.mk 1 [("A_BANCD", JSVal.str "BANK01")]
          ∈ filteredData ["A_BANCD"] "bank01"
            [Row.mk 1 [("A_BANCD", JSVal.str "BANK01")],
              Row.mk 2 [("A_BANCD", JSVal.str "BANK02")]]
        ↔ Row.mk 1 [("A_BANCD", JSVal.str "BANK01")]
            ∈ [Row.mk 1 [("A_BANCD", JSVal.str "BANK01")],
                Row.mk 2 [("A_BANCD", JSVal.str "BANK02")]]
          ∧ ∃ header ∈ ["A_BANCD"],
              strIncludes
                (jsToLower (jsString (jsOr
                  (getField (Row.mk 1 [("A_BANCD", JSVal.str "BANK01")]) header)
                  (JSVal.str ""))))
                (jsToLower "bank01") = true) :=
  ⟨by decide,
    filter_retains_iff_column_matches ["A_BANCD"] "bank01"
      [Row.mk 1 [("A_BANCD", JSVal.str "BANK01")],
        Row.mk 2 [("A_BANCD", JSVal.str "BANK02")]]
      (Row.mk 1 [("A_BANCD", JSVal.str "BANK01")]) (by decide)⟩

/-! ### Mutation operations -/

/-- Claim C5: saving a newly created record prepends it to the front of the
collection, leaving every pre-existing record unchanged and in its original
order. -/
theorem add_prepends_new_record (row : Row) (data : List Row) :
    (handleSaveRow true row data).head? = some row
    ∧ (handleSaveRow true row data).tail = data
    ∧ (handleSaveRow true row data).length = data.length + 1 := by
  simp [handleSaveRow]

/-- Claim C8: saving an edited record keeps the collection length, replaces
exactly the positions holding the edited record's id, and is the identity
on the whole collection when no record carries that id. -/
theorem edit_replaces_in_place (row : Row) (data : List Row) :
    (handleSaveRow false row data).length = data.length
    ∧ (∀ i : Nat, (handleSaveRow false row data)[i]?
        = (data[i]?).map (fun r => if r.id = row.id then row else r))
    ∧ ((∀ r ∈ data, r.id ≠ row.id) → handleSaveRow false row data = data) := by
  refine ⟨?_, ?_, ?_⟩
  · simp [handleSaveRow]
  · intro i
    simp [handleSaveRow, List.getElem?_map]
  · intro hno
    simp only [handleSaveRow, Bool.false_eq_true, if_false]
    have hcongr : ∀ r ∈ data, (if r.id = row.id then row else r) = id r :=
      fun r hr => if_neg (hno r hr)
    rw [List.map_congr_left hcongr, List.map_id]

/-- Witness for C8 at a concrete input: editing the record with id `2` in a
two-record collection. -/
theorem edit_replaces_in_place_witness :
    (handleSaveRow false (Row.mk 2 [("NOTES", JSVal.str "edited")])
          [Row.mk 1 [("NOTES", JSVal.str "a")], Row.mk 2 [("NOTES", JSVal.str "b")]]).length
        = [Row.mk 1 [("NOTES", JSVal.str "a")], Row.mk 2 [("NOTES", JSVal.str "b")]].length
    ∧ (∀ i : Nat,
        (handleSaveRow false (Row.mk 2 [("NOTES", JSVal.str "edited")])
            [Row.mk 1 [("NOTES", JSVal.str "a")], Row.mk 2 [("NOTES", JSVal.str "b")]])[i]?
          = ([Row.mk 1 [("NOTES", JSVal.str "a")], Row.mk 2 [("NOTES", JSVal.str "b")]][i]?).map
              (fun r => if r.id = (Row.mk 2 [("NOTES", JSVal.str "edited")]).id
                then Row.mk 2 [("NOTES", JSVal.str "edited")] else r))
    ∧ ((∀ r ∈ [Row.mk 1 [("NOTES", JSVal.str "a")], Row.mk 2 [("NOTES", JSVal.str "b")]],
          r.id ≠ (Row.mk 2 [("NOTES", JSVal.str "edited")]).id) →
        handleSaveRow false (Row.mk 2 [("NOTES", JSVal.str "edited")])
            [Row.mk 1 [("NOTES", JSVal.str "a")], Row.mk 2 [("NOTES", JSVal.str "b")]]
          = [Row.mk 1 [("NOTES", JSVal.str "a")], Row.mk 2 [("NOTES", JSVal.str "b")]]) :=
  edit_replaces_in_place (Row.mk 2 [("NOTES", JSVal.str "edited")])
    [Row.mk 1 [("NOTES", JSVal.str "a")], Row.mk 2 [("NOTES", JSVal.str "b")]]

/-- Claim C6: with a non-empty selection (and one fresh id per selected
record), the duplicate operation prepends the copies to the front, each
copy identical to its original in every field with a freshly minted id, the
copies in the same relative order as their originals (which form an
order-preserving sublist of the collection), and the original collection
unchanged after them. -/
theorem duplicate_prepends_copies (selectedRows newIds : List Int)
    (data : List Row) (hsel : selectedRows ≠ [])
    (hlen : newIds.length = (data.filter fun r => selectedRows.contains r.id).length) :
    (handleDuplicateSelected selectedRows newIds data).drop newIds.length = data
    ∧ ((handleDuplicateSelected selectedRows newIds data).take newIds.length).map Row.fields
        = (data.filter fun r => selectedRows.contains r.id).map Row.fields
    ∧ ((handleDuplicateSelected selectedRows newIds data).take newIds.length).map Row.id
        = newIds
    ∧ (data.filter fun r => selectedRows.contains r.id).Sublist data := by
  have hres : handleDuplicateSelected selectedRows newIds data
      = ((data.filter fun r => selectedRows.contains r.id).zip newIds).map
          (fun p => { p.1 with id := p.2 }) ++ data := by
    simp only [handleDuplicateSelected, if_neg hsel]
  have hdlen : (((data.filter fun r => selectedRows.contains r.id).zip newIds).map
      (fun p : Row × Int => { p.1 with id := p.2 })).length = newIds.length := by
    simp [List.length_zip, hlen]
  refine ⟨?_, ?_, ?_, List.filter_sublist data⟩
  · rw [hres, List.drop_left' hdlen]
  · rw [hres, List.take_left' hdlen, List.map_map]
    have hcomp : (Row.fields ∘ fun p : Row × Int => { p.1 with id := p.2 })
        = Row.fields ∘ Prod.fst := rfl
    rw [hcomp, ← List.map_map, List.map_fst_zip _ _ (le_of_eq hlen.symm)]
  · rw [hres, List.take_left' hdlen, List.map_map]
    have hcomp : (Row.id ∘ fun p : Row × Int => { p.1 with id := p.2 })
        = Prod.snd := rfl
    rw [hcomp, List.map_snd_zip _ _ (le_of_eq hlen)]

/-- Witness for C6 at a concrete input: duplicating the record with id `2`
out of a two-record collection, with fresh id `100`. -/
theorem duplicate_prepends_copies_witness :
    (([2] : List Int) ≠ [])
    ∧ ([100] : List Int).length
        = ([Row.mk 1 [("NOTES", JSVal.str "a")], Row.mk 2 [("NOTES", JSVal.str "b")]].filter
            fun r => ([2] : List Int).contains r.id).length
    ∧ ((handleDuplicateSelected [2] [100]
          [Row.mk 1 [("NOTES", JSVal.str "a")], Row.mk 2 [("NOTES", JSVal.str "b")]]).drop
            ([100] : List Int).length
        = [Row.mk 1 [("NOTES", JSVal.str "a")], Row.mk 2 [("NOTES", JSVal.str "b")]]
      ∧ ((handleDuplicateSelected [2] [100]
            [Row.mk 1 [("NOTES", JSVal.str "a")], Row.mk 2 [("NOTES", JSVal.str "b")]]).take
              ([100] : List Int).length).map Row.fields
          = ([Row.mk 1 [("NOTES", JSVal.str "a")], Row.mk 2 [("NOTES", JSVal.str "b")]].filter
              fun r => ([2] : List Int).contains r.id).map Row.fields
      ∧ ((handleDuplicateSelected [2] [100]
            [Row.mk 1 [("NOTES", JSVal.str "a")], Row.mk 2 [("NOTES", JSVal.str "b")]]).take
              ([100] : List Int).length).map Row.id = [100]
      ∧ ([Row.mk 1 [("NOTES", JSVal.str "a")], Row.mk 2 [("NOTES", JSVal.str "b")]].filter
            fun r => ([2] : List Int).contains r.id).Sublist
          [Row.mk 1 [("NOTES", JSVal.str "a")], Row.mk 2 [("NOTES", JSVal.str "b")]]) :=
  ⟨by decide, by decide,
    duplicate_prepends_copies [2] [100]
      [Row.mk 1 [("NOTES", JSVal.str "a")], Row.mk 2 [("NOTES", JSVal.str "b")]]
      (by decide) (by decide)⟩

/-- Claim C7: with a non-empty selection that matches at least one record
and fresh duplicate ids distinct from every id in the collection,
duplicating and then deleting exactly the freshly minted ids restores the
original collection, identifiers included, in content and order. -/
theorem duplicate_then_delete_roundtrip (selectedRows newIds : List Int)
    (data : List Row) (hsel : selectedRows ≠ [])
    (hlen : newIds.length = (data.filter fun r => selectedRows.contains r.id).length)
    (hmatch : (data.filter fun r => selectedRows.contains r.id) ≠ [])
    (hfresh : ∀ r ∈ data, r.id ∉ newIds) :
    handleDeleteSelected newIds (handleDuplicateSelected selectedRows newIds data)
      = data := by
  have hres : handleDuplicateSelected selectedRows newIds data
      = ((data.filter fun r => selectedRows.contains r.id).zip newIds).map
          (fun p => { p.1 with id := p.2 }) ++ data := by
    simp only [handleDuplicateSelected, if_neg hsel]
  have hnids : newIds ≠ [] := by
    intro hn
    rw [hn] at hlen
    exact hmatch (List.length_eq_zero.mp hlen.symm)
  rw [hres, handleDeleteSelected, if_neg hnids, List.filter_append]
  have h1 : (((data.filter fun r => selectedRows.contains r.id).zip newIds).map
      (fun p : Row × Int => { p.1 with id := p.2 })).filter
        (fun row => !(newIds.contains row.id)) = [] := by
    apply List.filter_eq_nil_iff.mpr
    intro d hd
    rcases List.mem_map.mp hd with ⟨⟨a, b⟩, hp, rfl⟩
    have hmem : b ∈ newIds := (List.of_mem_zip hp).2
    simp [List.contains, List.elem_iff, hmem]
  have h2 : data.filter (fun row => !(newIds.contains row.id)) = data := by
    apply List.filter_eq_self.mpr
    intro r hr
    simp [List.contains, List.elem_iff, hfresh r hr]
  rw [h1, h2, List.nil_append]

/-- Witness for C7 at a concrete input: duplicating the record with id `2`
with fresh id `100` and deleting id `100` again. -/
theorem duplicate_then_delete_roundtrip_witness :
    (([2] : List Int) ≠ [])
    ∧ ([100] : List Int).length
        = ([Row.mk 1 [("NOTES", JSVal.str "a")], Row.mk 2 [("NOTES", JSVal.str "b")]].filter
            fun r => ([2] : List Int).contains r.id).length
    ∧ ([Row.mk 1 [("NOTES", JSVal.str "a")], Row.mk 2 [("NOTES", JSVal.str "b")]].filter
          fun r => ([2] : List Int).contains r.id) ≠ []
    ∧ handleDeleteSelected [100]
        (handleDuplicateSelected [2] [100]
          [Row.mk 1 [("NOTES", JSVal.str "a")], Row.mk 2 [("NOTES", JSVal.str "b")]])
      = [Row.mk 1 [("NOTES", JSVal.str "a")], Row.mk 2 [("NOTES", JSVal.str "b")]] :=
  ⟨by decide, by decide, by decide,
    duplicate_then_delete_roundtrip [2] [100]
      [Row.mk 1 [("NOTES", JSVal.str "a")], Row.mk 2 [("NOTES", JSVal.str "b")]]
      (by decide) (by decide) (by decide) (by decide)⟩

/-! ### Pagination -/

theorem take_add_split {α : Type} (l : List α) (m n : Nat) :
    l.take (m + n) = l.take m ++ (l.drop m).take n := by
  conv_lhs => rw [← List.take_append_drop m (l.take (m + n))]
  congr 1
  · rw [List.take_take]
    congr 1
    omega
  · exact (List.take_drop m n l).symm

theorem flatten_pages (l : List Row) (ipp : Nat) :
    ∀ k : Nat, ((List.range k).map (fun i => paginatedData l ipp (i + 1))).flatten
      = l.take (k * ipp)
  | 0 => by simp
  | k + 1 => by
    rw [List.range_succ, List.map_append, List.flatten_append, flatten_pages l ipp k]
    simp only [List.map_cons, List.map_nil, List.flatten_cons, List.flatten_nil,
      List.append_nil]
    rw [paginatedData]
    have hidx : k + 1 - 1 = k := rfl
    rw [hidx, Nat.succ_mul, take_add_split]

theorem le_ceilDiv_mul (n ipp : Nat) (hpos : 0 < ipp) :
    n ≤ ((n + ipp - 1) / ipp) * ipp := by
  cases n with
  | zero => simp
  | succ m =>
    have h1 : m + 1 + ipp - 1 = m + ipp := by omega
    rw [h1, Nat.add_div_right m hpos]
    have h := Nat.div_add_mod m ipp
    have hm : m % ipp < ipp := Nat.mod_lt m hpos
    have h2 : (m / ipp + 1) * ipp = ipp * (m / ipp) + ipp := by ring
    rw [h2]
    generalize ht : ipp * (m / ipp) = t at h ⊢
    generalize hr : m % ipp = r at h hm
    omega

theorem totalPages_eq_ceilDiv (n ipp : Nat) (hpos : 0 < ipp) :
    totalPages n ipp = (((n + ipp - 1) / ipp : Nat) : Int) := by
  have hposQ : (0 : ℚ) < (ipp : ℚ) := by exact_mod_cast hpos
  rw [totalPages, Int.ceil_eq_iff]
  constructor
  · rcases Nat.eq_zero_or_pos n with rfl | hn
    · have hq0 : (0 + ipp - 1) / ipp = 0 := Nat.div_eq_of_lt (by omega)
      rw [hq0]
      push_cast
      simp only [zero_div]
      norm_num
    · rw [lt_div_iff₀ hposQ]
      have hq1 : 1 ≤ (n + ipp - 1) / ipp := by
        rw [Nat.one_le_div_iff hpos]
        omega
      have hsplit : n + ipp - 1 = (n - 1) + ipp := by omega
      have hqeq : (n + ipp - 1) / ipp = (n - 1) / ipp + 1 := by
        rw [hsplit, Nat.add_div_right _ hpos]
      have hnat : ((n - 1) / ipp) * ipp < n := by
        have := Nat.div_mul_le_self (n - 1) ipp
        omega
      have hcast : ((((n + ipp - 1) / ipp : Nat) : Int) : ℚ) - 1
          = (((n - 1) / ipp : Nat) : ℚ) := by
        rw [hqeq]
        generalize (n - 1) / ipp = m
        push_cast
        ring
      rw [hcast]
      exact_mod_cast hnat
  · rw [div_le_iff₀ hposQ]
    exact_mod_cast le_ceilDiv_mul n ipp hpos

/-- Claim C4: for every collection and every allowed page size, the total
page count is the ceiling of `length / pageSize` (here characterized by its
exact integer value, `0` on the empty collection), and the page slices for
pages `1` through `totalPages`, concatenated in order, reproduce the whole
filtered-and-sorted sequence: every element in exactly one page, no gaps,
no overlaps. -/
theorem pagination_partitions (l : List Row) (ipp : Nat)
    (hipp : ipp ∈ ITEMS_PER_PAGE_OPTIONS) :
    (l = [] → totalPages l.length ipp = 0)
    ∧ (totalPages l.length ipp).toNat = (l.length + ipp - 1) / ipp
    ∧ ((List.range (totalPages l.length ipp).toNat).map
        (fun i => paginatedData l ipp (i + 1))).flatten = l := by
  have hpos : 0 < ipp := by
    simp only [ITEMS_PER_PAGE_OPTIONS, List.mem_cons, List.not_mem_nil, or_false] at hipp
    rcases hipp with rfl | rfl | rfl | rfl <;> omega
  have hq := totalPages_eq_ceilDiv l.length ipp hpos
  refine ⟨?_, ?_, ?_⟩
  · intro hl
    subst hl
    simp [totalPages]
  · rw [hq]
    exact Int.toNat_natCast _
  · rw [hq]
    simp only [Int.toNat_natCast]
    rw [flatten_pages l ipp _]
    exact List.take_of_length_le (le_ceilDiv_mul l.length ipp hpos)

/-- Witness for C4 at a concrete input: three records with page size 10. -/
theorem pagination_partitions_witness :
    (10 ∈ ITEMS_PER_PAGE_OPTIONS)
    ∧ (([Row.mk 1 [], Row.mk 2 [], Row.mk 3 []] : List Row) = [] →
        totalPages ([Row.mk 1 [], Row.mk 2 [], Row.mk 3 []] : List Row).length 10 = 0)
    ∧ (totalPages ([Row.mk 1 [], Row.mk 2 [], Row.mk 3 []] : List Row).length 10).toNat
        = (([Row.mk 1 [], Row.mk 2 [], Row.mk 3 []] : List Row).length + 10 - 1) / 10
    ∧ ((List.range
          (totalPages ([Row.mk 1 [], Row.mk 2 [], Row.mk 3 []] : List Row).length 10).toNat).map
        (fun i => paginatedData [Row.mk 1 [], Row.mk 2 [], Row.mk 3 []] 10 (i + 1))).flatten
      = [Row.mk 1 [], Row.mk 2 [], Row.mk 3 []] := by
  refine ⟨by decide, ?_⟩
  exact pagination_partitions [Row.mk 1 [], Row.mk 2 [], Row.mk 3 []] 10 (by decide)

/-! ### Ingestion normalization -/

theorem length_jsSubstringTo (s : String) (n : Nat) :
    (jsSubstringTo s n).length ≤ n := by
  have h : (jsSubstringTo s n).length = (s.data.take n).length := rfl
  rw [h, List.length_take]
  exact Nat.min_le_left n _

theorem getField_transformRow_CHALLAN_NO (uid : Int) (sapModelDate : String)
    (item : String → JSVal) :
    getField (transformRow uid sapModelDate item) "CHALLAN_NO"
      = JSVal.str (jsSubstringTo (jsString (jsOr (item "Challan Number") (JSVal.str ""))) 11) :=
  rfl

theorem getField_transformRow_A_BANCD (uid : Int) (sapModelDate : String)
    (item : String → JSVal) :
    getField (transformRow uid sapModelDate item) "A_BANCD"
      = jsOr (item "Bank Code") (JSVal.str "") :=
  rfl

theorem getField_transformRow_A_BANKL (uid : Int) (sapModelDate : String)
    (item : String → JSVal) :
    getField (transformRow uid sapModelDate item) "A_BANKL"
      = jsOr (item "Branch Code") (JSVal.str "") :=
  rfl

theorem getField_transformRow_CHALL_DATE (uid : Int) (sapModelDate : String)
    (item : String → JSVal) :
    getField (transformRow uid sapModelDate item) "CHALL_DATE"
      = JSVal.str sapModelDate :=
  rfl

theorem getField_transformRow_ACCOUNT_CODE (uid : Int) (sapModelDate : String)
    (item : String → JSVal) :
    getField (transformRow uid sapModelDate item) "ACCOUNT_CODE"
      = jsOr (item "Account Code") (JSVal.str "") :=
  rfl

theorem getField_transformRow_CHAN_AMT (uid : Int) (sapModelDate : String)
    (item : String → JSVal) :
    getField (transformRow uid sapModelDate item) "CHAN_AMT"
      = jsOr (item "Amount") (JSVal.str "0") :=
  rfl

theorem getField_transformRow_NOTES (uid : Int) (sapModelDate : String)
    (item : String → JSVal) :
    getField (transformRow uid sapModelDate item) "NOTES"
      = JSVal.str (jsSubstringTo (jsString (jsOr (item "Notes") (JSVal.str ""))) 255) :=
  rfl

/-- Claim C9 counterexample: on 2026-10-12, ingesting a raw row with every
source cell absent (in particular no `Challan Date`) produces a record
whose `CHALL_DATE` field is the formatted current date `"20261012"`, not
the empty string — so not every absent source field defaults to the empty
string (or `"0"`). -/
theorem ingestion_date_default_counterexample :
    (fun _ => JSVal.null : String → JSVal) "Challan Date" = JSVal.null
    ∧ formatDateForSAP 2026 10 12 = "20261012"
    ∧ getField (transformRow 1 (formatDateForSAP 2026 10 12) (fun _ => JSVal.null))
        "CHALL_DATE" ≠ JSVal.str "" := by
  decide

/-- Claim C9 (amended): every ingested record exposes exactly the fixed
target column set, in order; each of the five plain source fields absent
from the raw row yields the empty string and an absent `Amount` yields
`"0"`; the `CHALLAN_NO` value is truncated to at most 11 characters and the
`NOTES` value to at most 255 characters.  (The date field is the exception
the counterexample forces: an absent `Challan Date` yields the formatted
current date, never the empty string.) -/
theorem ingestion_normalizes (uid : Int) (sapModelDate : String)
    (item : String → JSVal) :
    headersOf (transformRow uid sapModelDate item) = TARGET_HEADERS
    ∧ (item "Challan Number" = JSVal.null →
        getField (transformRow uid sapModelDate item) "CHALLAN_NO" = JSVal.str "")
    ∧ (item "Bank Code" = JSVal.null →
        getField (transformRow uid sapModelDate item) "A_BANCD" = JSVal.str "")
    ∧ (item "Branch Code" = JSVal.null →
        getField (transformRow uid sapModelDate item) "A_BANKL" = JSVal.str "")
    ∧ (item "Account Code" = JSVal.null →
        getField (transformRow uid sapModelDate item) "ACCOUNT_CODE" = JSVal.str "")
    ∧ (item "Amount" = JSVal.null →
        getField (transformRow uid sapModelDate item) "CHAN_AMT" = JSVal.str "0")
    ∧ (item "Notes" = JSVal.null →
        getField (transformRow uid sapModelDate item) "NOTES" = JSVal.str "")
    ∧ (∀ s : String,
        getField (transformRow uid sapModelDate item) "CHALLAN_NO" = JSVal.str s →
          s.length ≤ 11)
    ∧ (∀ s : String,
        getField (transformRow uid sapModelDate item) "NOTES" = JSVal.str s →
          s.length ≤ 255) := by
  refine ⟨rfl, ?_, ?_, ?_, ?_, ?_, ?_, ?_, ?_⟩
  · intro h
    rw [getField_transformRow_CHALLAN_NO, h]
    rfl
  · intro h
    rw [getField_transformRow_A_BANCD, h]
    rfl
  · intro h
    rw [getField_transformRow_A_BANKL, h]
    rfl
  · intro h
    rw [getField_transformRow_ACCOUNT_CODE, h]
    rfl
  · intro h
    rw [getField_transformRow_CHAN_AMT, h]
    rfl
  · intro h
    rw [getField_transformRow_NOTES, h]
    rfl
  · intro s hs
    rw [getField_transformRow_CHALLAN_NO] at hs
    have hseq : s = jsSubstringTo (jsString (jsOr (item "Challan Number") (JSVal.str ""))) 11 :=
      (JSVal.str.injEq _ _ ▸ hs).symm
    rw [hseq]
    exact length_jsSubstringTo _ 11
  · intro s hs
    rw [getField_transformRow_NOTES] at hs
    have hseq : s = jsSubstringTo (jsString (jsOr (item "Notes") (JSVal.str ""))) 255 :=
      (JSVal.str.injEq _ _ ▸ hs).symm
    rw [hseq]
    exact length_jsSubstringTo _ 255

/-- Witness for the amended C9 at a concrete input: a raw row with every
source cell absent. -/
theorem ingestion_normalizes_witness :
    headersOf (transformRow 1 "20261012" (fun _ => JSVal.null)) = TARGET_HEADERS
    ∧ ((fun _ => JSVal.null : String → JSVal) "Challan Number" = JSVal.null →
        getField (transformRow 1 "20261012" (fun _ => JSVal.null)) "CHALLAN_NO"
          = JSVal.str "")
    ∧ ((fun _ => JSVal.null : String → JSVal) "Bank Code" = JSVal.null →
        getField (transformRow 1 "20261012" (fun _ => JSVal.null)) "A_BANCD"
          = JSVal.str "")
    ∧ ((fun _ => JSVal.null : String → JSVal) "Branch Code" = JSVal.null →
        getField (transformRow 1 "20261012" (fun _ => JSVal.null)) "A_BANKL"
          = JSVal.str "")
    ∧ ((fun _ => JSVal.null : String → JSVal) "Account Code" = JSVal.null →
        getField (transformRow 1 "20261012" (fun _ => JSVal.null)) "ACCOUNT_CODE"
          = JSVal.str "")
    ∧ ((fun _ => JSVal.null : String → JSVal) "Amount" = JSVal.null →
        getField (transformRow 1 "20261012" (fun _ => JSVal.null)) "CHAN_AMT"
          = JSVal.str "0")
    ∧ ((fun _ => JSVal.null : String → JSVal) "Notes" = JSVal.null →
        getField (transformRow 1 "20261012" (fun _ => JSVal.null)) "NOTES"
          = JSVal.str "")
    ∧ (∀ s : String,
        getField (transformRow 1 "20261012" (fun _ => JSVal.null)) "CHALLAN_NO"
            = JSVal.str s → s.length ≤ 11)
    ∧ (∀ s : String,
        getField (transformRow 1 "20261012" (fun _ => JSVal.null)) "NOTES"
            = JSVal.str s → s.length ≤ 255) :=
  ingestion_normalizes 1 "20261012" (fun _ => JSVal.null)

/-! ### Empty strings in the sort comparator -/

/-- Claim C10: the empty string is classified as numeric by the comparator
(`Number('')` is `0`, so `isNaN('')` is false): against the value `"50"`
the comparator takes the numeric branch and returns `0 - 50 = -50` (the
string branch would return `-1`), and in an ascending sort on `CHAN_AMT`
the empty-string record is placed before the `"50"` record. -/
theorem empty_string_sorts_numerically :
    jsToNumber (JSVal.str "") = some 0
    ∧ sortCompare "CHAN_AMT" Direction.asc (Row.mk 1 [("CHAN_AMT", JSVal.str "")])
        (Row.mk 2 [("CHAN_AMT", JSVal.str "50")]) = -50
    ∧ strCompare (jsToLower (jsString (JSVal.str "")))
        (jsToLower (jsString (JSVal.str "50"))) = -1
    ∧ sortedData (SortConfig.mk (some "CHAN_AMT") Direction.asc)
        [Row.mk 2 [("CHAN_AMT", JSVal.str "50")], Row.mk 1 [("CHAN_AMT", JSVal.str "")]]
      = [Row.mk 1 [("CHAN_AMT", JSVal.str "")],
          Row.mk 2 [("CHAN_AMT", JSVal.str "50")]] := by
  decide
